import Mathlib

/-!
Verification of the go-kube apply/delete orchestration core.

The development shallowly embeds the repository's Go sources:
* `pkg/kubectl` apply source: `applyFunc`, `ApplyManifests`, `ApplyKustomization`,
  `applyOptions`, `ApplyManifestsOptions`, `ApplyKustomizationOptions`, `applyMutex`;
* `pkg/kubectl` delete source: `deleteFunc`, `DeleteManifests`, `DeleteKustomization`,
  `deleteOptions`, `deleteLock`;
* `pkg/kubectl/types.go`: `DryRunType` and its positional `String` conversion;
* `internal/resources` name generator: `randomName`, `allowedChars`.

Times are modelled as `Int` nanoseconds (Go `time.Time` / `time.Duration`).
The asynchronous race between the deadline timer (`time.AfterFunc`) and the
blocking engine invocation run in a goroutine is modelled by giving each
competitor an absolute completion time and resolving the single-slot result
channel in favour of the earlier one; a scheduler tie-break flag decides the
(real-world nondeterministic) simultaneous case.  The `sync.Mutex` discipline
is modelled separately as a small-step transition system over concurrent calls.
-/

/-- Nanoseconds per second, the unit conversion used by Go `time.Duration`. -/
def nsPerSecond : Int := 1000000000

/-- Fifteen seconds in nanoseconds: the synthesized deadline `time.Now().Add(15 * time.Second)`
used by both bridge functions when the caller's context has no deadline. -/
def fifteenSecondsNs : Int := 15 * nsPerSecond

/-- Whole seconds of a duration given in nanoseconds, truncated toward zero,
modelling Go `int(d.Seconds())` as used for the apply command's request-timeout flag. -/
def durationWholeSeconds (ns : Int) : Int := Int.tdiv ns nsPerSecond

/-- Caller-supplied `context.Context`, restricted to the only feature the bridge
reads from it: `ctx.Deadline() (deadline time.Time, ok bool)`, modelled as an
optional absolute time.  `deadline = none` corresponds to `ok = false`. -/
structure GoContext where
  deadline : Option Int
deriving DecidableEq

/-- Errors the bridge functions can return.  `errorf` models the `fmt.Errorf`
validation errors (carrying the literal format string used in the source);
`fatalError` models the structured error built by the overridden
`util.BehaviorOnFatal` handler from the message, exit code and captured
output/error streams; `deadlineExceeded` models `context.DeadlineExceeded`. -/
inductive GoError where
  | errorf (msg : String)
  | fatalError (msg : String) (errCode : Int) (outStream : String) (errStream : String)
  | deadlineExceeded
deriving DecidableEq

/-- Internal options of the apply bridge (`applyOptions` in the apply source).
`DryRun` is a boolean; the source documents it as the server-side dry-run
(`kubectl apply --dry-run=server`). -/
structure applyOptions where
  DryRun : Bool
  Recursive : Bool
  IsKustomization : Bool
deriving DecidableEq

/-- Internal options of the delete bridge (`deleteOptions` in the delete source). -/
structure deleteOptions where
  IsKustomization : Bool
deriving DecidableEq

/-- Public options of `ApplyManifests`. -/
structure ApplyManifestsOptions where
  DryRun : Bool
  Recursive : Bool
deriving DecidableEq

/-- Public options of `ApplyKustomization`. -/
structure ApplyKustomizationOptions where
  DryRun : Bool
  Recursive : Bool
deriving DecidableEq

/-- Behaviour of one asynchronous engine invocation (`applyCmd.Run` /
`deleteCmd.Run` executed in the spawned goroutine): the absolute time at which
the blocking call finishes, and — when it exits through the fatal handler —
the message, exit code and captured stream contents it reports.
`fatalOutcome = none` means the run completes normally and the goroutine
pushes `nil` onto the result channel. -/
structure EngineRun where
  completesAt : Int
  fatalOutcome : Option (String × Int × String × String)
deriving DecidableEq

/-- Value the engine's unit of work pushes onto the result channel:
`nil` (success) on normal completion, the formatted fatal error otherwise. -/
def engineChanValue (eng : EngineRun) : Option GoError :=
  match eng.fatalOutcome with
  | some (m, c, outS, errS) => some (GoError.fatalError m c outS errS)
  | none => none

/-- Flags the bridge sets on the underlying kubectl command via `Flags().Set`.
Each field is `none` when the bridge does not set the flag.  `applyFunc` sets
request-timeout, optionally dry-run and recursive, and exactly one path flag;
`deleteFunc` sets only a path flag. -/
structure CmdInvocation where
  requestTimeout : Option String
  dryRun : Option String
  recursive : Option String
  kustomize : Option String
  filename : Option String
deriving DecidableEq

/-- Observable trace of one bridge call (`applyFunc` / `deleteFunc`):
the returned error value (`none` = nil), the constructed engine invocation
(`none` when validation failed before the engine was touched), the derived
deadline data, the timer's fire time, the moment the first channel value was
received (when the call returns), the time at which the background engine work
completes regardless of whether it won the race, and whether the process-global
fatal hook was installed and then restored by the deferred call. -/
structure BridgeTrace where
  result : Option GoError
  invocation : Option CmdInvocation
  effDeadline : Option Int
  timeLeft : Option Int
  timerFiresAt : Option Int
  returnTime : Option Int
  engineCompletesAt : Option Int
  fatalHookInstalled : Bool
  fatalHookRestored : Bool
deriving DecidableEq

/-- Trace of a call that fails one of the local precondition checks: the
function returns the validation error at once — no deadline is derived, no
timer is started, no hook is installed and the engine is never invoked. -/
def validationTrace (e : GoError) : BridgeTrace :=
  { result := some e
    invocation := none
    effDeadline := none
    timeLeft := none
    timerFiresAt := none
    returnTime := none
    engineCompletesAt := none
    fatalHookInstalled := false
    fatalHookRestored := false }

/-- Effective deadline: `deadline, ok := ctx.Deadline(); if !ok { deadline = time.Now().Add(15 * time.Second) }`. -/
def deriveDeadline (now : Int) (ctx : GoContext) : Int :=
  match ctx.deadline with
  | some d => d
  | none => now + fifteenSecondsNs

/-- Absolute time at which `time.AfterFunc(timeLeft, ...)` runs its callback:
after `timeLeft` elapses, or immediately when `timeLeft` is zero or negative. -/
def timerFireTime (now timeLeft : Int) : Int := now + max timeLeft 0

/-- First value received on the single-slot result channel: the deadline timer
pushes `context.DeadlineExceeded` at `timerAt`, the engine goroutine pushes its
value at `eng.completesAt`; the earlier push is the one the blocking receive
`<-errChan` observes.  `timerFirstOnTie` resolves the simultaneous case, in
which Go's scheduler picks either sender. -/
def raceFirstValue (timerAt : Int) (eng : EngineRun) (timerFirstOnTie : Bool) : Option GoError :=
  if timerAt < eng.completesAt ∨ (timerAt = eng.completesAt ∧ timerFirstOnTie = true) then
    some GoError.deadlineExceeded
  else
    engineChanValue eng

/-- Valid-input branch of `applyFunc` (everything after the three validation
checks): derives the deadline and `timeLeft`, schedules the timer, installs the
fatal hook (restored by `defer util.DefaultBehaviorOnFatal()`), sets the
request-timeout, dry-run, recursive and path flags on the apply command,
spawns the blocking run and returns the first result-channel value. -/
def applyFuncValid (now : Int) (ctx : GoContext) (opts : applyOptions)
    (filePaths : List String) (eng : EngineRun) (timerFirstOnTie : Bool) : BridgeTrace :=
  let deadline := deriveDeadline now ctx
  let timeLeft := deadline - now
  let timerAt := timerFireTime now timeLeft
  { result := raceFirstValue timerAt eng timerFirstOnTie
    invocation := some
      { requestTimeout := some (toString (durationWholeSeconds timeLeft))
        dryRun := if opts.DryRun then some "server" else none
        recursive := if opts.Recursive then some "true" else none
        kustomize := if opts.IsKustomization then some (String.intercalate "," filePaths) else none
        filename := if opts.IsKustomization then none else some (String.intercalate "," filePaths) }
    effDeadline := some deadline
    timeLeft := some timeLeft
    timerFiresAt := some timerAt
    returnTime := some (min timerAt eng.completesAt)
    engineCompletesAt := some eng.completesAt
    fatalHookInstalled := true
    fatalHookRestored := true }

/-- Model of `applyFunc(ctx, kubeconfigPath, opts, filePaths)` from the apply
source.  The mutex acquisition/release around the body is modelled separately
by the `BridgeStep` transition system; this function captures the sequential
behaviour of one call: the three validation checks in source order, then the
valid-input branch.  `opts = none` models a nil `*applyOptions` pointer. -/
def applyFunc (now : Int) (ctx : GoContext) (kubeconfigPath : String)
    (opts : Option applyOptions) (filePaths : List String)
    (eng : EngineRun) (timerFirstOnTie : Bool) : BridgeTrace :=
  if kubeconfigPath = "" then
    validationTrace (GoError.errorf "kubeconfig path cannot be empty")
  else
    match opts with
    | none => validationTrace (GoError.errorf "options cannot be nil")
    | some o =>
      if filePaths = [] then
        validationTrace (GoError.errorf "no files to apply")
      else
        applyFuncValid now ctx o filePaths eng timerFirstOnTie

/-- Valid-input branch of `deleteFunc`: identical protocol to
`applyFuncValid`, except that the delete command receives no request-timeout,
dry-run or recursive flag — only the kustomize/filename path flag. -/
def deleteFuncValid (now : Int) (ctx : GoContext) (opts : deleteOptions)
    (filePaths : List String) (eng : EngineRun) (timerFirstOnTie : Bool) : BridgeTrace :=
  let deadline := deriveDeadline now ctx
  let timeLeft := deadline - now
  let timerAt := timerFireTime now timeLeft
  { result := raceFirstValue timerAt eng timerFirstOnTie
    invocation := some
      { requestTimeout := none
        dryRun := none
        recursive := none
        kustomize := if opts.IsKustomization then some (String.intercalate "," filePaths) else none
        filename := if opts.IsKustomization then none else some (String.intercalate "," filePaths) }
    effDeadline := some deadline
    timeLeft := some timeLeft
    timerFiresAt := some timerAt
    returnTime := some (min timerAt eng.completesAt)
    engineCompletesAt := some eng.completesAt
    fatalHookInstalled := true
    fatalHookRestored := true }

/-- Model of `deleteFunc(ctx, kubeconfigPath, opts, filePaths...)` from the
delete source: the same three validation checks in the same order (with the
delete-specific "no files to delete" message), then the valid-input branch. -/
def deleteFunc (now : Int) (ctx : GoContext) (kubeconfigPath : String)
    (opts : Option deleteOptions) (filePaths : List String)
    (eng : EngineRun) (timerFirstOnTie : Bool) : BridgeTrace :=
  if kubeconfigPath = "" then
    validationTrace (GoError.errorf "kubeconfig path cannot be empty")
  else
    match opts with
    | none => validationTrace (GoError.errorf "options cannot be nil")
    | some o =>
      if filePaths = [] then
        validationTrace (GoError.errorf "no files to delete")
      else
        deleteFuncValid now ctx o filePaths eng timerFirstOnTie

/-- Result of calling a Go function that may panic instead of returning. -/
inductive GoResult (α : Type) where
  | ok (val : α)
  | panicked (msg : String)
deriving DecidableEq

/-- Message of the Go runtime panic raised by dereferencing a nil pointer. -/
def nilDerefMsg : String := "runtime error: invalid memory address or nil pointer dereference"

/-- Model of `ApplyManifests(ctx, kubeconfigPath, opts, filePaths)`: the
wrapper reads `opts.DryRun` and `opts.Recursive` from the pointer without a
nil check — a nil pointer therefore panics (Go runtime nil dereference) before
`applyFunc` is reached; otherwise it builds a fresh `applyOptions` with
`IsKustomization = false` and delegates. -/
def ApplyManifests (now : Int) (ctx : GoContext) (kubeconfigPath : String)
    (opts : Option ApplyManifestsOptions) (filePaths : List String)
    (eng : EngineRun) (timerFirstOnTie : Bool) : GoResult (Option GoError) :=
  match opts with
  | none => GoResult.panicked nilDerefMsg
  | some o =>
    GoResult.ok (applyFunc now ctx kubeconfigPath
      (some { DryRun := o.DryRun, Recursive := o.Recursive, IsKustomization := false })
      filePaths eng timerFirstOnTie).result

/-- Model of `ApplyKustomization(ctx, kubeconfigPath, opts, filePaths)`:
same shape as `ApplyManifests` with `IsKustomization` forced to true. -/
def ApplyKustomization (now : Int) (ctx : GoContext) (kubeconfigPath : String)
    (opts : Option ApplyKustomizationOptions) (filePaths : List String)
    (eng : EngineRun) (timerFirstOnTie : Bool) : GoResult (Option GoError) :=
  match opts with
  | none => GoResult.panicked nilDerefMsg
  | some o =>
    GoResult.ok (applyFunc now ctx kubeconfigPath
      (some { DryRun := o.DryRun, Recursive := o.Recursive, IsKustomization := true })
      filePaths eng timerFirstOnTie).result

/-- Model of `DeleteManifests(ctx, kubeconfigPath, filePaths...)`: constructs a
fresh zero-valued `deleteOptions` and delegates to `deleteFunc`. -/
def DeleteManifests (now : Int) (ctx : GoContext) (kubeconfigPath : String)
    (filePaths : List String) (eng : EngineRun) (timerFirstOnTie : Bool) : Option GoError :=
  (deleteFunc now ctx kubeconfigPath (some { IsKustomization := false })
    filePaths eng timerFirstOnTie).result

/-- Model of `DeleteKustomization(ctx, kubeconfigPath, filePaths...)`:
constructs fresh `deleteOptions` with `IsKustomization` forced to true. -/
def DeleteKustomization (now : Int) (ctx : GoContext) (kubeconfigPath : String)
    (filePaths : List String) (eng : EngineRun) (timerFirstOnTie : Bool) : Option GoError :=
  (deleteFunc now ctx kubeconfigPath (some { IsKustomization := true })
    filePaths eng timerFirstOnTie).result

/-- Sealed dry-run enumeration from `pkg/kubectl/types.go`: the three declared
constants `DryRunNone`, `DryRunClient`, `DryRunServer` (a closed sum; the Go
source seals the type against outside extension via an unexported interface). -/
inductive DryRunType where
  | DryRunNone
  | DryRunClient
  | DryRunServer
deriving DecidableEq

/-- Ordinal of a `DryRunType` constant, as declared by the Go `iota` block:
None = 0, Client = 1, Server = 2. -/
def DryRunType.ordinal : DryRunType → Nat
  | DryRunType.DryRunNone => 0
  | DryRunType.DryRunClient => 1
  | DryRunType.DryRunServer => 2

/-- Fixed ordered string list `[...]string{"none", "client", "server"}` that
`DryRunType.String()` indexes into. -/
def dryRunStrings : List String := ["none", "client", "server"]

/-- Model of `func (d DryRunType) String() string`: positional index of the
ordinal into the fixed list (name-independent, order-sensitive). -/
def DryRunType.toString (d : DryRunType) : String :=
  dryRunStrings.get ⟨d.ordinal, by cases d <;> decide⟩

/-- Character set of the name generator: `allowedChars` from the
`internal/resources` name source (lowercase letters and digits). -/
def allowedChars : String := "abcdefghijklmnopqrstuvwxyz0123456789"

/-- Model of `allowedCharsLen = len(allowedChars)`. -/
def allowedCharsLen : Nat := allowedChars.length

/-- Model of `randomName(length, prefixes)` from the `internal/resources` name
source.  The global `rand.Intn(allowedCharsLen)` draws are modelled by `rng`,
giving the in-range index produced by the i-th call.  The builder writes the
prefixes joined by "-", then a "-"; if `length` minus the bytes written so far
is not positive it returns what it has, otherwise it appends that many random
characters.  String lengths model Go byte lengths (the generator's own
alphabet and the repository's prefixes are ASCII). -/
def randomName (rng : Nat → Fin allowedCharsLen) (length : Int) (prefixes : List String) : String :=
  let base := String.intercalate "-" prefixes ++ "-"
  let remainingLength : Int := length - (base.length : Int)
  if remainingLength ≤ 0 then
    base
  else
    base ++ String.mk ((List.range remainingLength.toNat).map
      (fun i => allowedChars.toList.get (Fin.cast rfl (rng i))))

/-- Random source that always draws index 0 (the character 'a'), used to
evaluate `randomName` on concrete inputs. -/
def rngZero : Nat → Fin allowedCharsLen := fun _ => ⟨0, by decide⟩

/-- Operation families of the bridge, each with its own package-level mutex
(`applyMutex` in the apply source, `deleteLock` in the delete source). -/
inductive OpFamily where
  | apply
  | delete
deriving DecidableEq

/-- Phase of one bridge call.  `validating` = between `Lock()` (the first
statement of `applyFunc` / `deleteFunc`) and either an early validation return
or the start of the channel receive; `waiting` = blocked on `<-errChan`;
`finished` = returned, with the deferred `Unlock()` executed. -/
inductive CallPhase where
  | ready
  | validating
  | waiting
  | finished
deriving DecidableEq

/-- Phases during which a call holds its family's mutex: everything between
`Lock()` and the deferred `Unlock()`, including the channel wait. -/
def CallPhase.holdsLock : CallPhase → Bool
  | CallPhase.validating => true
  | CallPhase.waiting => true
  | CallPhase.ready => false
  | CallPhase.finished => false

/-- Global state of a population of concurrent bridge calls: the family and
phase of each call (indexed by call id), and the holder of each of the two
package-level mutexes (`none` = unlocked). -/
structure BridgeSys where
  calls : Nat → Option (OpFamily × CallPhase)
  applyHolder : Option Nat
  deleteHolder : Option Nat

/-- Holder of the mutex of a family. -/
def holder (s : BridgeSys) : OpFamily → Option Nat
  | OpFamily.apply => s.applyHolder
  | OpFamily.delete => s.deleteHolder

/-- State with the mutex of family `f` set to `v`. -/
def setHolder (s : BridgeSys) (f : OpFamily) (v : Option Nat) : BridgeSys :=
  match f with
  | OpFamily.apply => { s with applyHolder := v }
  | OpFamily.delete => { s with deleteHolder := v }

/-- State with call `i` replaced by `c`. -/
def withCall (s : BridgeSys) (i : Nat) (c : OpFamily × CallPhase) : BridgeSys :=
  { s with calls := Function.update s.calls i (some c) }

/-- Interleaving semantics of the mutex discipline of `applyFunc` and
`deleteFunc`.  Transitions mirror the control flow of both functions:
`Lock()` is the first statement and blocks until the family mutex is free;
`defer Unlock()` runs on every way out of the call — the early validation
returns, the normal return after the channel receive, and panic unwinding from
either region (Go runs deferred calls during a panic, so the same
release-on-finish transitions cover the panic paths). -/
inductive BridgeStep : BridgeSys → BridgeSys → Prop where
  | lock (s : BridgeSys) (i : Nat) (f : OpFamily)
      (hc : s.calls i = some (f, CallPhase.ready))
      (hfree : holder s f = none) :
      BridgeStep s (withCall (setHolder s f (some i)) i (f, CallPhase.validating))
  | validationReturn (s : BridgeSys) (i : Nat) (f : OpFamily)
      (hc : s.calls i = some (f, CallPhase.validating)) :
      BridgeStep s (withCall (setHolder s f none) i (f, CallPhase.finished))
  | beginWait (s : BridgeSys) (i : Nat) (f : OpFamily)
      (hc : s.calls i = some (f, CallPhase.validating)) :
      BridgeStep s (withCall s i (f, CallPhase.waiting))
  | chanReturn (s : BridgeSys) (i : Nat) (f : OpFamily)
      (hc : s.calls i = some (f, CallPhase.waiting)) :
      BridgeStep s (withCall (setHolder s f none) i (f, CallPhase.finished))

/-- Initial state for a population of calls with the given families: every
call is about to enter its bridge function, both mutexes are free. -/
def initSys (fams : List OpFamily) : BridgeSys :=
  { calls := fun i => (fams.get? i).map (fun f => (f, CallPhase.ready))
    applyHolder := none
    deleteHolder := none }

/-- Mutex invariant: every call in a lock-holding phase is the recorded holder
of its family's mutex. -/
def LockInv (s : BridgeSys) : Prop :=
  ∀ i f p, s.calls i = some (f, p) → p.holdsLock = true → holder s f = some i

/-- Concrete scenario state: one apply call that has just acquired `applyMutex`. -/
def sysA1 : BridgeSys :=
  withCall (setHolder (initSys [OpFamily.apply]) OpFamily.apply (some 0)) 0
    (OpFamily.apply, CallPhase.validating)

/-- Concrete scenario state: the same call now blocked on its result channel. -/
def sysA2 : BridgeSys := withCall sysA1 0 (OpFamily.apply, CallPhase.waiting)

theorem withCall_calls_self (s : BridgeSys) (i : Nat) (c : OpFamily × CallPhase) :
    (withCall s i c).calls i = some c := by
  simp [withCall]

theorem withCall_calls_ne (s : BridgeSys) {i j : Nat} (c : OpFamily × CallPhase) (h : j ≠ i) :
    (withCall s i c).calls j = s.calls j := by
  simp [withCall, Function.update_noteq h]

theorem holder_withCall (s : BridgeSys) (i : Nat) (c : OpFamily × CallPhase) (f : OpFamily) :
    holder (withCall s i c) f = holder s f := by
  cases f <;> rfl

theorem calls_setHolder (s : BridgeSys) (f : OpFamily) (v : Option Nat) :
    (setHolder s f v).calls = s.calls := by
  cases f <;> rfl

theorem holder_setHolder_self (s : BridgeSys) (f : OpFamily) (v : Option Nat) :
    holder (setHolder s f v) f = v := by
  cases f <;> rfl

theorem holder_setHolder_ne (s : BridgeSys) {f g : OpFamily} (v : Option Nat) (h : g ≠ f) :
    holder (setHolder s f v) g = holder s g := by
  cases f <;> cases g <;> first | rfl | exact absurd rfl h

theorem lockInv_init (fams : List OpFamily) : LockInv (initSys fams) := by
  intro i f p hc hp
  simp only [initSys] at hc
  cases hfg : fams.get? i with
  | none => rw [hfg] at hc; simp at hc
  | some g =>
    rw [hfg] at hc
    simp only [Option.map_some', Option.some.injEq, Prod.mk.injEq] at hc
    rw [← hc.2] at hp
    simp [CallPhase.holdsLock] at hp

theorem lockInv_step {s t : BridgeSys} (hinv : LockInv s) (hstep : BridgeStep s t) : LockInv t := by
  cases hstep with
  | lock i f hc hfree =>
    intro j g p hj hp
    by_cases hji : j = i
    · subst hji
      rw [withCall_calls_self] at hj
      obtain ⟨hg, hpv⟩ := Prod.mk.injEq .. ▸ Option.some.inj hj
      subst hg
      rw [holder_withCall, holder_setHolder_self]
    · rw [withCall_calls_ne _ _ hji, calls_setHolder] at hj
      have hold := hinv j g p hj hp
      by_cases hgf : g = f
      · subst hgf
        rw [hold] at hfree
        exact absurd hfree (by simp)
      · rw [holder_withCall, holder_setHolder_ne _ _ hgf]
        exact hold
  | validationReturn i f hc =>
    intro j g p hj hp
    by_cases hji : j = i
    · subst hji
      rw [withCall_calls_self] at hj
      obtain ⟨hg, hpv⟩ := Prod.mk.injEq .. ▸ Option.some.inj hj
      rw [← hpv] at hp
      simp [CallPhase.holdsLock] at hp
    · rw [withCall_calls_ne _ _ hji, calls_setHolder] at hj
      have hold := hinv j g p hj hp
      have hme := hinv i f CallPhase.validating hc rfl
      by_cases hgf : g = f
      · subst hgf
        rw [hold] at hme
        exact absurd (Option.some.inj hme) hji
      · rw [holder_withCall, holder_setHolder_ne _ _ hgf]
        exact hold
  | beginWait i f hc =>
    intro j g p hj hp
    by_cases hji : j = i
    · subst hji
      rw [withCall_calls_self] at hj
      obtain ⟨hg, hpv⟩ := Prod.mk.injEq .. ▸ Option.some.inj hj
      subst hg
      rw [holder_withCall]
      exact hinv _ _ _ hc rfl
    · rw [withCall_calls_ne _ _ hji] at hj
      rw [holder_withCall]
      exact hinv j g p hj hp
  | chanReturn i f hc =>
    intro j g p hj hp
    by_cases hji : j = i
    · subst hji
      rw [withCall_calls_self] at hj
      obtain ⟨hg, hpv⟩ := Prod.mk.injEq .. ▸ Option.some.inj hj
      rw [← hpv] at hp
      simp [CallPhase.holdsLock] at hp
    · rw [withCall_calls_ne _ _ hji, calls_setHolder] at hj
      have hold := hinv j g p hj hp
      have hme := hinv i f CallPhase.waiting hc rfl
      by_cases hgf : g = f
      · subst hgf
        rw [hold] at hme
        exact absurd (Option.some.inj hme) hji
      · rw [holder_withCall, holder_setHolder_ne _ _ hgf]
        exact hold

theorem lockInv_reachable {fams : List OpFamily} {s : BridgeSys}
    (h : Relation.ReflTransGen BridgeStep (initSys fams) s) : LockInv s := by
  induction h with
  | refl => exact lockInv_init fams
  | tail hsteps hstep ih => exact lockInv_step ih hstep

/-- C3: each operation family (apply, delete) has its own mutex, acquired as
the first statement of every `applyFunc` / `deleteFunc` call and released
unconditionally by the deferred unlock on every return path (validation error,
normal return, panic unwinding).  In every state reachable by interleaving
such calls, at most one call of each family holds that family's lock — hence
at most one apply and, independently, at most one delete is in flight — and a
call blocked on its result channel (phase `waiting`), like one still
validating, is the holder of its family's lock for the whole call. -/
theorem bridge_lock_mutual_exclusion (fams : List OpFamily) (s : BridgeSys)
    (hreach : Relation.ReflTransGen BridgeStep (initSys fams) s) :
    (∀ i j f pi pj, s.calls i = some (f, pi) → s.calls j = some (f, pj) →
        pi.holdsLock = true → pj.holdsLock = true → i = j) ∧
    (∀ i f p, s.calls i = some (f, p) → p.holdsLock = true → holder s f = some i) := by
  have hinv := lockInv_reachable hreach
  refine ⟨?_, hinv⟩
  intro i j f pi pj hi hj hpi hpj
  have h1 := hinv i f pi hi hpi
  have h2 := hinv j f pj hj hpj
  rw [h1] at h2
  exact Option.some.inj h2

/-- Witness for C3: in the concrete two-step scenario — an apply call locks
`applyMutex`, then starts waiting on its channel — the waiting call is the
holder of the apply lock. -/
theorem bridge_lock_mutual_exclusion_witness : holder sysA2 OpFamily.apply = some 0 :=
  (bridge_lock_mutual_exclusion [OpFamily.apply] sysA2
      (Relation.ReflTransGen.tail
        (Relation.ReflTransGen.single
          (BridgeStep.lock (initSys [OpFamily.apply]) 0 OpFamily.apply rfl rfl))
        (BridgeStep.beginWait sysA1 0 OpFamily.apply rfl))).2
    0 OpFamily.apply CallPhase.waiting rfl rfl

theorem applyFunc_valid_eq (now : Int) (ctx : GoContext) (kp : String) (o : applyOptions)
    (files : List String) (eng : EngineRun) (tie : Bool) (hk : kp ≠ "") (hf : files ≠ []) :
    applyFunc now ctx kp (some o) files eng tie = applyFuncValid now ctx o files eng tie := by
  simp [applyFunc, hk, hf]

theorem deleteFunc_valid_eq (now : Int) (ctx : GoContext) (kp : String) (o : deleteOptions)
    (files : List String) (eng : EngineRun) (tie : Bool) (hk : kp ≠ "") (hf : files ≠ []) :
    deleteFunc now ctx kp (some o) files eng tie = deleteFuncValid now ctx o files eng tie := by
  simp [deleteFunc, hk, hf]

/-- C1: both bridge functions return a validation error — immediately, with no
engine invocation constructed, no timer started and nothing retried — whenever
the kubeconfig path is empty; and, for a non-empty kubeconfig path, whenever
the options pointer is nil or the file path list is empty.  The resulting
trace is exactly `validationTrace`, whose `invocation` and `engineCompletesAt`
are `none`: the underlying command engine is never invoked. -/
theorem applyFunc_deleteFunc_validation (now : Int) (ctx : GoContext) (kp : String)
    (aopts : Option applyOptions) (dopts : Option deleteOptions)
    (filePaths : List String) (eng : EngineRun) (tie : Bool) :
    (kp = "" →
      applyFunc now ctx kp aopts filePaths eng tie =
        validationTrace (GoError.errorf "kubeconfig path cannot be empty") ∧
      deleteFunc now ctx kp dopts filePaths eng tie =
        validationTrace (GoError.errorf "kubeconfig path cannot be empty")) ∧
    (kp ≠ "" → aopts = none →
      applyFunc now ctx kp aopts filePaths eng tie =
        validationTrace (GoError.errorf "options cannot be nil")) ∧
    (kp ≠ "" → dopts = none →
      deleteFunc now ctx kp dopts filePaths eng tie =
        validationTrace (GoError.errorf "options cannot be nil")) ∧
    (kp ≠ "" → filePaths = [] → ∀ o : applyOptions,
      applyFunc now ctx kp (some o) filePaths eng tie =
        validationTrace (GoError.errorf "no files to apply")) ∧
    (kp ≠ "" → filePaths = [] → ∀ o : deleteOptions,
      deleteFunc now ctx kp (some o) filePaths eng tie =
        validationTrace (GoError.errorf "no files to delete")) := by
  refine ⟨?_, ?_, ?_, ?_, ?_⟩
  · rintro rfl
    exact ⟨by simp [applyFunc], by simp [deleteFunc]⟩
  · rintro hk rfl
    simp [applyFunc, hk]
  · rintro hk rfl
    simp [deleteFunc, hk]
  · rintro hk rfl o
    simp [applyFunc, hk]
  · rintro hk rfl o
    simp [deleteFunc, hk]

/-- Witness for C1: concrete calls — an apply call with empty kubeconfig path
returns the empty-kubeconfig validation error without touching the engine, and
a delete call with a kubeconfig but no files returns the no-files error. -/
theorem applyFunc_deleteFunc_validation_witness :
    applyFunc 0 ⟨none⟩ "" none [] ⟨1, none⟩ true =
      validationTrace (GoError.errorf "kubeconfig path cannot be empty") ∧
    deleteFunc 0 ⟨none⟩ "kc" (some ⟨false⟩) [] ⟨1, none⟩ true =
      validationTrace (GoError.errorf "no files to delete") :=
  ⟨((applyFunc_deleteFunc_validation 0 ⟨none⟩ "" none none [] ⟨1, none⟩ true).1 rfl).1,
   (applyFunc_deleteFunc_validation 0 ⟨none⟩ "kc" none none [] ⟨1, none⟩
       true).2.2.2.2 (by decide) rfl ⟨false⟩⟩

/-- C2: for every call that passes validation, both bridge functions return
the first value received on the single-slot result channel: the deadline timer
(pushing `DeadlineExceeded` when it fires first, ties resolved by the
scheduler) races the asynchronous engine run (pushing nil on success or the
intercepted fatal error).  The call returns at the earlier of the two times —
it does not await the later unit of work — and the losing unit is not
cancelled: the background engine work still completes at its own time, which
the trace records unchanged. -/
theorem applyFunc_deleteFunc_first_result (now : Int) (ctx : GoContext) (kp : String)
    (ao : applyOptions) (dopt : deleteOptions) (files : List String)
    (eng : EngineRun) (tie : Bool) (hk : kp ≠ "") (hf : files ≠ []) :
    ((timerFireTime now (deriveDeadline now ctx - now) < eng.completesAt ∨
        (timerFireTime now (deriveDeadline now ctx - now) = eng.completesAt ∧ tie = true)) →
      (applyFunc now ctx kp (some ao) files eng tie).result = some GoError.deadlineExceeded ∧
      (deleteFunc now ctx kp (some dopt) files eng tie).result = some GoError.deadlineExceeded) ∧
    ((eng.completesAt < timerFireTime now (deriveDeadline now ctx - now) ∨
        (timerFireTime now (deriveDeadline now ctx - now) = eng.completesAt ∧ tie = false)) →
      (applyFunc now ctx kp (some ao) files eng tie).result = engineChanValue eng ∧
      (deleteFunc now ctx kp (some dopt) files eng tie).result = engineChanValue eng) ∧
    ((applyFunc now ctx kp (some ao) files eng tie).returnTime =
        some (min (timerFireTime now (deriveDeadline now ctx - now)) eng.completesAt) ∧
      (deleteFunc now ctx kp (some dopt) files eng tie).returnTime =
        some (min (timerFireTime now (deriveDeadline now ctx - now)) eng.completesAt)) ∧
    ((applyFunc now ctx kp (some ao) files eng tie).engineCompletesAt = some eng.completesAt ∧
      (deleteFunc now ctx kp (some dopt) files eng tie).engineCompletesAt =
        some eng.completesAt) := by
  rw [applyFunc_valid_eq now ctx kp ao files eng tie hk hf,
      deleteFunc_valid_eq now ctx kp dopt files eng tie hk hf]
  refine ⟨?_, ?_, ?_, ?_⟩
  · intro hw
    constructor <;> simp [applyFuncValid, deleteFuncValid, raceFirstValue, hw]
  · intro h2
    have hnot : ¬ (timerFireTime now (deriveDeadline now ctx - now) < eng.completesAt ∨
        (timerFireTime now (deriveDeadline now ctx - now) = eng.completesAt ∧ tie = true)) := by
      rcases h2 with h2a | ⟨h2e, h2t⟩
      · rintro (hlt | ⟨heq, -⟩)
        · exact absurd (lt_trans hlt h2a) (lt_irrefl _)
        · rw [heq] at h2a
          exact lt_irrefl _ h2a
      · rintro (hlt | ⟨-, htie⟩)
        · rw [h2e] at hlt
          exact lt_irrefl _ hlt
        · rw [htie] at h2t
          simp at h2t
    constructor <;> simp [applyFuncValid, deleteFuncValid, raceFirstValue, hnot]
  · constructor <;> simp [applyFuncValid, deleteFuncValid]
  · constructor <;> simp [applyFuncValid, deleteFuncValid]

/-- Witness for C2: with no context deadline the timer fires at 15 seconds;
an engine run finishing at t = 5 ns wins the race, so the concrete apply call
returns the engine's channel value (nil — success). -/
theorem applyFunc_deleteFunc_first_result_witness :
    (applyFunc 0 ⟨none⟩ "kc" (some ⟨false, false, false⟩) ["f"] ⟨5, none⟩ true).result =
      engineChanValue ⟨5, none⟩ :=
  ((applyFunc_deleteFunc_first_result 0 ⟨none⟩ "kc" ⟨false, false, false⟩ ⟨false⟩ ["f"]
      ⟨5, none⟩ true (by decide) (by decide)).2.1 (Or.inl (by decide))).1

/-- C4: for every validated call to either bridge function, the effective
deadline recorded in the trace is the caller context's deadline when it
carries one, and otherwise the moment of the call plus 15 seconds; the time
budget is `timeLeft = deadline - now`, derived once at call start. -/
theorem applyFunc_deleteFunc_effective_deadline (now : Int) (ctx : GoContext) (kp : String)
    (ao : applyOptions) (dopt : deleteOptions) (files : List String)
    (eng : EngineRun) (tie : Bool) (hk : kp ≠ "") (hf : files ≠ []) :
    (∀ d, ctx.deadline = some d →
      (applyFunc now ctx kp (some ao) files eng tie).effDeadline = some d ∧
      (deleteFunc now ctx kp (some dopt) files eng tie).effDeadline = some d) ∧
    (ctx.deadline = none →
      (applyFunc now ctx kp (some ao) files eng tie).effDeadline =
        some (now + fifteenSecondsNs) ∧
      (deleteFunc now ctx kp (some dopt) files eng tie).effDeadline =
        some (now + fifteenSecondsNs)) ∧
    ((applyFunc now ctx kp (some ao) files eng tie).timeLeft =
        some (deriveDeadline now ctx - now) ∧
      (deleteFunc now ctx kp (some dopt) files eng tie).timeLeft =
        some (deriveDeadline now ctx - now)) := by
  rw [applyFunc_valid_eq now ctx kp ao files eng tie hk hf,
      deleteFunc_valid_eq now ctx kp dopt files eng tie hk hf]
  refine ⟨?_, ?_, ?_⟩
  · intro d hd
    constructor <;> simp [applyFuncValid, deleteFuncValid, deriveDeadline, hd]
  · intro hd
    constructor <;> simp [applyFuncValid, deleteFuncValid, deriveDeadline, hd]
  · constructor <;> simp [applyFuncValid, deleteFuncValid]

/-- Witness for C4: a concrete apply call whose context carries deadline 77
records 77 as the effective deadline. -/
theorem applyFunc_deleteFunc_effective_deadline_witness :
    (applyFunc 3 ⟨some 77⟩ "kc" (some ⟨false, false, false⟩) ["f"] ⟨9, none⟩ false).effDeadline =
      some 77 :=
  ((applyFunc_deleteFunc_effective_deadline 3 ⟨some 77⟩ "kc" ⟨false, false, false⟩ ⟨false⟩
      ["f"] ⟨9, none⟩ false (by decide) (by decide)).1 77 rfl).1

/-- C5: a validated call whose context deadline is already in the past has a
zero-or-negative `timeLeft`; the timer then fires immediately (at the moment
of the call), the call returns `DeadlineExceeded` as soon as the timer's value
is received, and it does so at time `now` — it does not wait the default 15
seconds.  The hypothesis `now < eng.completesAt` says only that the blocking
engine run takes a positive amount of time. -/
theorem applyFunc_deleteFunc_past_deadline_immediate (now : Int) (ctx : GoContext)
    (kp : String) (ao : applyOptions) (dopt : deleteOptions) (files : List String)
    (eng : EngineRun) (tie : Bool) (d : Int)
    (hk : kp ≠ "") (hf : files ≠ []) (hd : ctx.deadline = some d) (hpast : d ≤ now)
    (heng : now < eng.completesAt) :
    (applyFunc now ctx kp (some ao) files eng tie).timeLeft = some (d - now) ∧
    d - now ≤ 0 ∧
    (applyFunc now ctx kp (some ao) files eng tie).timerFiresAt = some now ∧
    (applyFunc now ctx kp (some ao) files eng tie).result = some GoError.deadlineExceeded ∧
    (applyFunc now ctx kp (some ao) files eng tie).returnTime = some now ∧
    (deleteFunc now ctx kp (some dopt) files eng tie).timeLeft = some (d - now) ∧
    (deleteFunc now ctx kp (some dopt) files eng tie).timerFiresAt = some now ∧
    (deleteFunc now ctx kp (some dopt) files eng tie).result = some GoError.deadlineExceeded ∧
    (deleteFunc now ctx kp (some dopt) files eng tie).returnTime = some now ∧
    now < now + fifteenSecondsNs := by
  rw [applyFunc_valid_eq now ctx kp ao files eng tie hk hf,
      deleteFunc_valid_eq now ctx kp dopt files eng tie hk hf]
  have hdl : deriveDeadline now ctx = d := by simp [deriveDeadline, hd]
  have htf : timerFireTime now (deriveDeadline now ctx - now) = now := by
    rw [hdl]
    unfold timerFireTime
    omega
  have hwin : timerFireTime now (deriveDeadline now ctx - now) < eng.completesAt ∨
      (timerFireTime now (deriveDeadline now ctx - now) = eng.completesAt ∧ tie = true) := by
    left
    rw [htf]
    exact heng
  have hmin : min (timerFireTime now (deriveDeadline now ctx - now)) eng.completesAt = now := by
    rw [htf]
    omega
  refine ⟨?_, by omega, ?_, ?_, ?_, ?_, ?_, ?_, ?_, ?_⟩
  · simp [applyFuncValid, hdl]
  · simp [applyFuncValid, htf]
  · simp [applyFuncValid, raceFirstValue, hwin]
  · simp [applyFuncValid, hmin]
  · simp [deleteFuncValid, hdl]
  · simp [deleteFuncValid, htf]
  · simp [deleteFuncValid, raceFirstValue, hwin]
  · simp [deleteFuncValid, hmin]
  · have : (0 : Int) < fifteenSecondsNs := by decide
    omega

/-- Witness for C5: a call at time now = 100 whose context deadline is 40
(already past) returns `DeadlineExceeded` at time 100, even though the engine
run would only finish at time 500. -/
theorem applyFunc_deleteFunc_past_deadline_immediate_witness :
    (applyFunc 100 ⟨some 40⟩ "kc" (some ⟨false, false, false⟩) ["f"] ⟨500, none⟩ false).result =
      some GoError.deadlineExceeded :=
  (applyFunc_deleteFunc_past_deadline_immediate 100 ⟨some 40⟩ "kc" ⟨false, false, false⟩
      ⟨false⟩ ["f"] ⟨500, none⟩ false 40 (by decide) (by decide) rfl (by decide)
      (by decide)).2.2.2.1

/-- C6: every validated apply request constructs the underlying invocation
with a request-timeout flag equal to `timeLeft` truncated to whole seconds, a
dry-run flag (value "server") set exactly when the boolean dry-run option —
which the source documents as requesting the server-side dry-run — is set and
unset when it requests none, a recursive flag exactly when the recursive
option is set, and exactly one comma-joined path-list flag: "kustomize" when
`IsKustomization` holds, "filename" otherwise, preserving file order. -/
theorem applyFunc_invocation_flags (now : Int) (ctx : GoContext) (kp : String)
    (o : applyOptions) (files : List String) (eng : EngineRun) (tie : Bool)
    (hk : kp ≠ "") (hf : files ≠ []) :
    ∃ inv : CmdInvocation,
      (applyFunc now ctx kp (some o) files eng tie).invocation = some inv ∧
      inv.requestTimeout =
        some (toString (durationWholeSeconds (deriveDeadline now ctx - now))) ∧
      inv.dryRun = (if o.DryRun then some "server" else none) ∧
      (inv.dryRun ≠ none ↔ o.DryRun = true) ∧
      inv.recursive = (if o.Recursive then some "true" else none) ∧
      (inv.recursive ≠ none ↔ o.Recursive = true) ∧
      (o.IsKustomization = true →
        inv.kustomize = some (String.intercalate "," files) ∧ inv.filename = none) ∧
      (o.IsKustomization = false →
        inv.filename = some (String.intercalate "," files) ∧ inv.kustomize = none) ∧
      ¬(inv.kustomize ≠ none ∧ inv.filename ≠ none) := by
  rw [applyFunc_valid_eq now ctx kp o files eng tie hk hf]
  refine ⟨{ requestTimeout := some (toString (durationWholeSeconds (deriveDeadline now ctx - now))), dryRun := if o.DryRun then some "server" else none, recursive := if o.Recursive then some "true" else none, kustomize := if o.IsKustomization then some (String.intercalate "," files) else none, filename := if o.IsKustomization then none else some (String.intercalate "," files) }, by simp [applyFuncValid], rfl, rfl, ?_, rfl, ?_, ?_, ?_, ?_⟩
  · cases hdr : o.DryRun <;> simp [hdr]
  · cases hrec : o.Recursive <;> simp [hrec]
  · intro hkust
    simp [hkust]
  · intro hkust
    simp [hkust]
  · cases hkust : o.IsKustomization <;> simp [hkust]

/-- Witness for C6: a concrete apply call with dry-run and recursive set, no
context deadline and a manifest path list produces the "filename" flag joined
by commas, the "server" dry-run value, the "true" recursive value and a
15-second request timeout. -/
theorem applyFunc_invocation_flags_witness :
    ∃ inv : CmdInvocation,
      (applyFunc 0 ⟨none⟩ "kc" (some ⟨true, true, false⟩) ["a.yaml", "b.yaml"]
          ⟨5, none⟩ true).invocation = some inv ∧
      inv.requestTimeout =
        some (toString (durationWholeSeconds (deriveDeadline 0 ⟨none⟩ - 0))) ∧
      inv.dryRun = (if (true : Bool) then some "server" else none) ∧
      (inv.dryRun ≠ none ↔ (true : Bool) = true) ∧
      inv.recursive = (if (true : Bool) then some "true" else none) ∧
      (inv.recursive ≠ none ↔ (true : Bool) = true) ∧
      ((false : Bool) = true →
        inv.kustomize = some (String.intercalate "," ["a.yaml", "b.yaml"]) ∧
        inv.filename = none) ∧
      ((false : Bool) = false →
        inv.filename = some (String.intercalate "," ["a.yaml", "b.yaml"]) ∧
        inv.kustomize = none) ∧
      ¬(inv.kustomize ≠ none ∧ inv.filename ≠ none) :=
  applyFunc_invocation_flags 0 ⟨none⟩ "kc" ⟨true, true, false⟩ ["a.yaml", "b.yaml"]
    ⟨5, none⟩ true (by decide) (by decide)

/-- C7: `deleteFunc` follows the same contract shape as `applyFunc`: the same
validation checks in the same order (empty kubeconfig and nil options produce
identical traces; the empty-file check fires in the same situations, with the
delete-specific message), the same deadline derivation, deadline timer,
fatal-hook installation/restoration and first-result return (the delete lock
being covered by the `BridgeStep` semantics) — except that it drives the
delete invocation, selecting the comma-joined "kustomize" or "filename" path
flag from `IsKustomization`, and sets no request-timeout, dry-run or
recursive flags. -/
theorem deleteFunc_mirrors_applyFunc (now : Int) (ctx : GoContext) (kp : String)
    (dopt : deleteOptions) (files : List String) (eng : EngineRun) (tie : Bool) :
    (kp = "" →
      deleteFunc now ctx kp (some dopt) files eng tie =
        applyFunc now ctx kp (some ⟨false, false, dopt.IsKustomization⟩) files eng tie) ∧
    (deleteFunc now ctx kp none files eng tie =
      applyFunc now ctx kp none files eng tie) ∧
    (kp ≠ "" → files = [] →
      deleteFunc now ctx kp (some dopt) files eng tie =
        validationTrace (GoError.errorf "no files to delete") ∧
      applyFunc now ctx kp (some ⟨false, false, dopt.IsKustomization⟩) files eng tie =
        validationTrace (GoError.errorf "no files to apply")) ∧
    (kp ≠ "" → files ≠ [] →
      (deleteFunc now ctx kp (some dopt) files eng tie).result =
        (applyFunc now ctx kp (some ⟨false, false, dopt.IsKustomization⟩) files eng tie).result ∧
      (deleteFunc now ctx kp (some dopt) files eng tie).effDeadline =
        (applyFunc now ctx kp (some ⟨false, false, dopt.IsKustomization⟩) files eng
          tie).effDeadline ∧
      (deleteFunc now ctx kp (some dopt) files eng tie).timeLeft =
        (applyFunc now ctx kp (some ⟨false, false, dopt.IsKustomization⟩) files eng
          tie).timeLeft ∧
      (deleteFunc now ctx kp (some dopt) files eng tie).timerFiresAt =
        (applyFunc now ctx kp (some ⟨false, false, dopt.IsKustomization⟩) files eng
          tie).timerFiresAt ∧
      (deleteFunc now ctx kp (some dopt) files eng tie).returnTime =
        (applyFunc now ctx kp (some ⟨false, false, dopt.IsKustomization⟩) files eng
          tie).returnTime ∧
      (deleteFunc now ctx kp (some dopt) files eng tie).engineCompletesAt =
        (applyFunc now ctx kp (some ⟨false, false, dopt.IsKustomization⟩) files eng
          tie).engineCompletesAt ∧
      (deleteFunc now ctx kp (some dopt) files eng tie).fatalHookInstalled = true ∧
      (deleteFunc now ctx kp (some dopt) files eng tie).fatalHookRestored = true ∧
      ∃ inv : CmdInvocation,
        (deleteFunc now ctx kp (some dopt) files eng tie).invocation = some inv ∧
        inv.requestTimeout = none ∧
        inv.dryRun = none ∧
        inv.recursive = none ∧
        (dopt.IsKustomization = true →
          inv.kustomize = some (String.intercalate "," files) ∧ inv.filename = none) ∧
        (dopt.IsKustomization = false →
          inv.filename = some (String.intercalate "," files) ∧ inv.kustomize = none)) := by
  refine ⟨?_, ?_, ?_, ?_⟩
  · rintro rfl
    simp [deleteFunc, applyFunc]
  · by_cases hk : kp = ""
    · subst hk
      simp [deleteFunc, applyFunc]
    · simp [deleteFunc, applyFunc, hk]
  · intro hk hf
    subst hf
    exact ⟨by simp [deleteFunc, hk], by simp [applyFunc, hk]⟩
  · intro hk hf
    rw [deleteFunc_valid_eq now ctx kp dopt files eng tie hk hf,
        applyFunc_valid_eq now ctx kp ⟨false, false, dopt.IsKustomization⟩ files eng tie hk hf]
    refine ⟨rfl, rfl, rfl, rfl, rfl, rfl, rfl, rfl,
      { requestTimeout := none, dryRun := none, recursive := none, kustomize := if dopt.IsKustomization then some (String.intercalate "," files) else none, filename := if dopt.IsKustomization then none else some (String.intercalate "," files) }, by simp [deleteFuncValid], rfl, rfl, rfl, ?_, ?_⟩
    · intro hkust
      simp [hkust]
    · intro hkust
      simp [hkust]

/-- Witness for C7: a concrete validated delete-kustomization call produces
the same race result as the corresponding apply call and an invocation whose
only flag is the comma-joined "kustomize" path flag. -/
theorem deleteFunc_mirrors_applyFunc_witness :
    (deleteFunc 0 ⟨none⟩ "kc" (some ⟨true⟩) ["k1", "k2"] ⟨7, none⟩ false).result =
      (applyFunc 0 ⟨none⟩ "kc" (some ⟨false, false, true⟩) ["k1", "k2"] ⟨7, none⟩
        false).result :=
  ((deleteFunc_mirrors_applyFunc 0 ⟨none⟩ "kc" ⟨true⟩ ["k1", "k2"] ⟨7, none⟩
      false).2.2.2 (by decide) (by decide)).1

theorem applyFunc_some_opts_result_ne_nil_options (now : Int) (ctx : GoContext) (kp : String)
    (a : applyOptions) (files : List String) (eng : EngineRun) (tie : Bool) :
    (applyFunc now ctx kp (some a) files eng tie).result ≠
      some (GoError.errorf "options cannot be nil") := by
  by_cases hk : kp = ""
  · subst hk
    simp [applyFunc, validationTrace]
  · by_cases hf : files = []
    · subst hf
      simp [applyFunc, hk, validationTrace]
    · rw [applyFunc_valid_eq now ctx kp a files eng tie hk hf]
      simp only [applyFuncValid, raceFirstValue]
      split
      · simp
      · cases hfa : eng.fatalOutcome with
        | none => simp [engineChanValue, hfa]
        | some q =>
          obtain ⟨m, c, outS, errS⟩ := q
          simp [engineChanValue, hfa]

/-- C8: calling `ApplyManifests` or `ApplyKustomization` with a nil options
pointer panics with the Go nil-dereference runtime error (the wrapper reads
`opts.DryRun` / `opts.Recursive` before delegating) instead of returning the
bridge's nil-options validation error; and every call that reaches `applyFunc`
through a public wrapper carries a freshly built non-nil `applyOptions`, so no
wrapper call can ever return the bridge's "options cannot be nil" error — that
validation branch is unreachable from the public API. -/
theorem apply_wrappers_nil_options_panic (now : Int) (ctx : GoContext) (kp : String)
    (files : List String) (eng : EngineRun) (tie : Bool) :
    (ApplyManifests now ctx kp none files eng tie = GoResult.panicked nilDerefMsg) ∧
    (ApplyKustomization now ctx kp none files eng tie = GoResult.panicked nilDerefMsg) ∧
    (∀ (o : ApplyManifestsOptions) (r : Option GoError),
      ApplyManifests now ctx kp (some o) files eng tie = GoResult.ok r →
      r ≠ some (GoError.errorf "options cannot be nil")) ∧
    (∀ (o : ApplyKustomizationOptions) (r : Option GoError),
      ApplyKustomization now ctx kp (some o) files eng tie = GoResult.ok r →
      r ≠ some (GoError.errorf "options cannot be nil")) := by
  refine ⟨rfl, rfl, ?_, ?_⟩
  · intro o r hr
    simp only [ApplyManifests, GoResult.ok.injEq] at hr
    rw [← hr]
    exact applyFunc_some_opts_result_ne_nil_options now ctx kp _ files eng tie
  · intro o r hr
    simp only [ApplyKustomization, GoResult.ok.injEq] at hr
    rw [← hr]
    exact applyFunc_some_opts_result_ne_nil_options now ctx kp _ files eng tie

/-- Witness for C8: a concrete nil-options call panics, and a concrete
non-nil wrapper call does not produce the nil-options validation error. -/
theorem apply_wrappers_nil_options_panic_witness :
    (ApplyManifests 0 ⟨none⟩ "kc" none ["f"] ⟨5, none⟩ true =
      GoResult.panicked nilDerefMsg) ∧
    (applyFunc 0 ⟨none⟩ "kc" (some ⟨false, false, false⟩) ["f"] ⟨5, none⟩ true).result ≠
      some (GoError.errorf "options cannot be nil") :=
  ⟨(apply_wrappers_nil_options_panic 0 ⟨none⟩ "kc" ["f"] ⟨5, none⟩ true).1,
   (apply_wrappers_nil_options_panic 0 ⟨none⟩ "kc" ["f"] ⟨5, none⟩ true).2.2.1
     ⟨false, false⟩ _ rfl⟩

/-- C9: the dry-run mode's string conversion indexes the ordinal of the
constant into the fixed ordered list ["none", "client", "server"]:
`DryRunNone` (ordinal 0) maps to "none", `DryRunClient` (ordinal 1) to
"client", `DryRunServer` (ordinal 2) to "server", and the sealed enumeration
has exactly these three variants. -/
theorem dryRunType_string_positional :
    DryRunType.toString DryRunType.DryRunNone = "none" ∧
    DryRunType.toString DryRunType.DryRunClient = "client" ∧
    DryRunType.toString DryRunType.DryRunServer = "server" ∧
    DryRunType.ordinal DryRunType.DryRunNone = 0 ∧
    DryRunType.ordinal DryRunType.DryRunClient = 1 ∧
    DryRunType.ordinal DryRunType.DryRunServer = 2 ∧
    dryRunStrings = ["none", "client", "server"] ∧
    (∀ d : DryRunType, DryRunType.toString d = dryRunStrings.getD (DryRunType.ordinal d) "") ∧
    (∀ d : DryRunType, d = DryRunType.DryRunNone ∨ d = DryRunType.DryRunClient ∨
      d = DryRunType.DryRunServer) := by
  refine ⟨rfl, rfl, rfl, rfl, rfl, rfl, rfl, ?_, ?_⟩
  · intro d
    cases d <;> rfl
  · intro d
    cases d
    · exact Or.inl rfl
    · exact Or.inr (Or.inl rfl)
    · exact Or.inr (Or.inr rfl)

/-- C10 (amended): `randomName` returns the prefix segments joined by "-",
followed by a "-" separator, then randomly drawn characters from the
lowercase-letters-and-digits alphabet; the total length equals the requested
length whenever the joined prefix with its trailing separator fits within the
requested length, but when the joined prefix with separator is already longer
than the requested length the function returns exactly that prefix-plus-
separator, whose length exceeds the requested length — the requested length
does not bound the result. -/
theorem randomName_structure_length (rng : Nat → Fin allowedCharsLen) (len : Int)
    (prefixes : List String) :
    ∃ suffix : List Char,
      randomName rng len prefixes =
        (String.intercalate "-" prefixes ++ "-") ++ String.mk suffix ∧
      (∀ c ∈ suffix, c ∈ allowedChars.toList) ∧
      (((String.intercalate "-" prefixes ++ "-").length : Int) ≤ len →
        (randomName rng len prefixes).length = len.toNat) ∧
      (len < ((String.intercalate "-" prefixes ++ "-").length : Int) →
        randomName rng len prefixes = String.intercalate "-" prefixes ++ "-" ∧
        len < ((randomName rng len prefixes).length : Int)) := by
  by_cases hrem : len - ((String.intercalate "-" prefixes ++ "-").length : Int) ≤ 0
  · have heq : randomName rng len prefixes = String.intercalate "-" prefixes ++ "-" := by
      simp only [randomName]
      rw [if_pos hrem]
    refine ⟨[], ?_, by simp, ?_, ?_⟩
    · rw [heq]
      simp
    · intro hle
      rw [heq]
      omega
    · intro hlt
      rw [heq]
      constructor
      · rfl
      · exact hlt
  · have hpos : 0 < len - ((String.intercalate "-" prefixes ++ "-").length : Int) := by omega
    have heq : randomName rng len prefixes =
        (String.intercalate "-" prefixes ++ "-") ++
          String.mk ((List.range
              (len - ((String.intercalate "-" prefixes ++ "-").length : Int)).toNat).map
            (fun i => allowedChars.toList.get (Fin.cast rfl (rng i)))) := by
      simp only [randomName]
      rw [if_neg hrem]
    refine ⟨_, heq, ?_, ?_, ?_⟩
    · intro c hc
      obtain ⟨i, -, hi⟩ := List.mem_map.mp hc
      rw [← hi]
      exact List.get_mem _ _ _
    · intro hle
      rw [heq, String.length_append]
      have hmk : (String.mk ((List.range
            (len - ((String.intercalate "-" prefixes ++ "-").length : Int)).toNat).map
          (fun i => allowedChars.toList.get (Fin.cast rfl (rng i))))).length =
          (len - ((String.intercalate "-" prefixes ++ "-").length : Int)).toNat := by
        simp
      rw [hmk]
      omega
    · intro hlt
      omega

/-- Witness for C10 (amended): with the constant random source, requested
length 24 and prefixes ["ephemeral", "cluster"] — the arguments used by
`EphemeralCluster.Start` — the generated name has exactly 24 characters. -/
theorem randomName_structure_length_witness :
    (randomName rngZero 24 ["ephemeral", "cluster"]).length = 24 := by
  obtain ⟨suffix, -, -, hlen, -⟩ :=
    randomName_structure_length rngZero 24 ["ephemeral", "cluster"]
  exact hlen (by decide)

/-- Counterexample to C10 as stated: the claim's length bound fails — with
requested length 2 and prefix segment "ephemeral", the joined prefix with its
trailing separator is returned whole, and its 10 characters exceed the
requested length 2. -/
theorem randomName_length_bound_counterexample :
    ¬ ((randomName rngZero 2 ["ephemeral"]).length ≤ 2) := by decide
